import Mathlib

/-!
Shallow embedding of the `csv-exec` program (src/src/main.rs) in Lean 4.

The program streams CSV records, and for each record materializes a command
from a shell-tokenized template by replacing every match of a configurable
regex (default `\$([0-9]+)`) in each argument with the field the match's
first capture group indexes (0-based); it then runs the command, decodes
its captured stdout as UTF-8, trims it, appends it as a new trailing field
and writes the augmented record.

Modelling choices:
  * A record is a `List String` (the csv crate's `StringRecord`).
  * A compiled regex is abstracted by its match function: for an input
    string it yields the list of non-overlapping matches, left to right,
    each with an absolute start position, a length, and the optional text
    of capture group 1 (`caps.get(1)` in the source).  The concrete
    default pattern `\$([0-9]+)` is embedded as `findMatchesDollar`.
  * Strings are manipulated as `List Char`; Rust byte positions become
    character positions, which is faithful for the per-match structure
    the claims are about.
  * `usize` parsing (`str::parse::<usize>`) is embedded with its actual
    grammar: an optional leading `+`, one or more ASCII digits, and an
    overflow check against `usize::MAX` (modelled for a 64-bit target).
  * The external process is an oracle `ExecOracle`: for a program name and
    argument list it either fails to launch or returns captured stdout
    bytes and an exit status (which the program never inspects).
-/

namespace CsvExec

/-- One CSV record: an ordered sequence of string fields. -/
abbrev Record := List String

/-- One regex match inside an argument string: absolute start position,
length of the whole match, and the text of capture group 1 when that group
participated in the match. -/
structure RMatch where
  start : Nat
  len : Nat
  cap : Option String
  deriving DecidableEq, Repr

/-- A compiled placeholder pattern, abstracted by its match function:
the non-overlapping matches of the pattern in a string, left to right. -/
abbrev Pattern := List Char → List RMatch

/-- `usize::MAX` of the 64-bit target the program is compiled for. -/
def USIZE_MAX : Nat := 2 ^ 64 - 1

/-- Value of a list of ASCII digits read in base 10. -/
def digitsToNat (ds : List Char) : Nat :=
  ds.foldl (fun acc c => acc * 10 + (c.toNat - '0'.toNat)) 0

/-- Embedding of Rust `str::parse::<usize>()`: an optional leading `+`
followed by one or more ASCII digits, rejecting overflow past
`usize::MAX`; anything else fails. -/
def parseUsize (s : String) : Option Nat :=
  let cs :=
    match s.data with
    | '+' :: rest => rest
    | cs => cs
  if cs ≠ [] ∧ cs.all Char.isDigit then
    if digitsToNat cs ≤ USIZE_MAX then some (digitsToNat cs) else none
  else none

/-- The replacement closure of main.rs lines 190-199: from the optional
capture group 1 of one match, parse it as `usize` and look the index up in
the record; any failure along the chain yields the empty string. -/
def resolveCapture (record : Record) (cap : Option String) : String :=
  match (cap.bind parseUsize).bind record.get? with
  | none => ""
  | some value => value

/-- `Regex::replace_all` over an explicit match list: starting from
cursor `pos`, copy the text up to each match, emit the replacement
`f` of its capture, resume after the match, and copy the tail verbatim. -/
def replaceAllFrom (f : Option String → String) (s : List Char) :
    Nat → List RMatch → List Char
  | pos, [] => s.drop pos
  | pos, m :: ms =>
      (s.drop pos).take (m.start - pos) ++ (f m.cap).data
        ++ replaceAllFrom f s (m.start + m.len) ms

/-- The part of `replace_all` that stops at position `stop`: used to name
the prefix of the output produced by the matches before a given one. -/
def replaceUpTo (f : Option String → String) (s : List Char) (stop : Nat) :
    Nat → List RMatch → List Char
  | pos, [] => (s.drop pos).take (stop - pos)
  | pos, m :: ms =>
      (s.drop pos).take (m.start - pos) ++ (f m.cap).data
        ++ replaceUpTo f s stop (m.start + m.len) ms

/-- Resolving one argument template against a record
(main.rs lines 188-201): replace every match of the pattern. -/
def resolveArg (pattern : Pattern) (record : Record) (arg : String) : String :=
  ⟨replaceAllFrom (resolveCapture record) arg.data 0 (pattern arg.data)⟩

/-- Matches of the default pattern `\$([0-9]+)`: a `$` immediately followed
by a maximal non-empty run of ASCII digits, the run being the capture;
scanning resumes after each match.  The fuel argument is initialised with
the string length, which bounds the number of scanning steps since each
step consumes at least one character. -/
def findMatchesAux : Nat → List Char → Nat → List RMatch
  | 0, _, _ => []
  | _ + 1, [], _ => []
  | fuel + 1, c :: rest, pos =>
      if c = '$' then
        let ds := rest.takeWhile Char.isDigit
        if ds.isEmpty then
          findMatchesAux fuel rest (pos + 1)
        else
          ⟨pos, 1 + ds.length, some ⟨ds⟩⟩
            :: findMatchesAux fuel (rest.drop ds.length) (pos + (1 + ds.length))
      else findMatchesAux fuel rest (pos + 1)

/-- The default placeholder pattern `\$([0-9]+)` as a match function. -/
def findMatchesDollar : Pattern := fun s => findMatchesAux s.length s 0

/-- Well-formedness of a match list from cursor `pos`: matches start at or
after the cursor, are non-empty, and are pairwise non-overlapping in
increasing position order. -/
def WFFrom (pos : Nat) : List RMatch → Prop
  | [] => True
  | m :: ms => pos ≤ m.start ∧ 0 < m.len ∧ WFFrom (m.start + m.len) ms

def WFFrom.dec (pos : Nat) : (ms : List RMatch) → Decidable (WFFrom pos ms)
  | [] => .isTrue trivial
  | m :: ms =>
      @instDecidableAnd (pos ≤ m.start) _ inferInstance
        (@instDecidableAnd (0 < m.len) (WFFrom (m.start + m.len) ms)
          inferInstance (WFFrom.dec _ ms))

instance (pos : Nat) (ms : List RMatch) : Decidable (WFFrom pos ms) :=
  WFFrom.dec pos ms

/-! ## The per-record pipeline (main.rs lines 180-214) -/

/-- Result of trying to launch the external process: either the launch
fails (`process::Command::output()` returns an error), or it completes
with captured stdout bytes and an exit status.  The program never reads
the exit status. -/
inductive LaunchResult where
  | failed
  | ok (stdout : List Nat) (status : Int)
  deriving DecidableEq, Repr

/-- The process-execution collaborator: program name and concrete
arguments in, launch result out. -/
abbrev ExecOracle := String → List String → LaunchResult

/-- The error cases of the per-record pipeline. -/
inductive RunError where
  | emptyCommand
  | processLaunchFailed
  | invalidOutputEncoding
  deriving DecidableEq, Repr

/-- Decidable equality on pipeline results, for evaluating the model on
concrete runs. -/
def exceptDecEq {ε α : Type} [DecidableEq ε] [DecidableEq α] :
    (a b : Except ε α) → Decidable (a = b)
  | .error e, .error e' =>
      if h : e = e' then .isTrue (by rw [h])
      else .isFalse fun hh => h (Except.error.inj hh)
  | .error _, .ok _ => .isFalse fun hh => Except.noConfusion hh
  | .ok _, .error _ => .isFalse fun hh => Except.noConfusion hh
  | .ok a, .ok a' =>
      if h : a = a' then .isTrue (by rw [h])
      else .isFalse fun hh => h (Except.ok.inj hh)

instance {ε α : Type} [DecidableEq ε] [DecidableEq α] :
    DecidableEq (Except ε α) := exceptDecEq

/-- A UTF-8 continuation byte, `0x80..0xBF`. -/
def contByte (b : Nat) : Bool :=
  decide (0x80 ≤ b) && decide (b < 0xC0)

/-- Strict UTF-8 decoding of a byte list to the list of scalar values,
as `std::str::from_utf8` validates it: rejects overlong encodings,
surrogates and values above `U+10FFFF`. -/
def utf8DecodeAux : List Nat → Option (List Nat)
  | [] => some []
  | b :: bs =>
      if b < 0x80 then
        (utf8DecodeAux bs).map (b :: ·)
      else if b < 0xC2 then none
      else if b < 0xE0 then
        match bs with
        | b1 :: bs2 =>
            if contByte b1 then
              (utf8DecodeAux bs2).map (((b - 0xC0) * 0x40 + (b1 - 0x80)) :: ·)
            else none
        | [] => none
      else if b < 0xF0 then
        match bs with
        | b1 :: b2 :: bs3 =>
            if (if b = 0xE0 then 0xA0 else 0x80) ≤ b1
                ∧ b1 < (if b = 0xED then 0xA0 else 0xC0)
                ∧ contByte b2 then
              (utf8DecodeAux bs3).map
                (((b - 0xE0) * 0x1000 + (b1 - 0x80) * 0x40 + (b2 - 0x80)) :: ·)
            else none
        | _ => none
      else if b < 0xF5 then
        match bs with
        | b1 :: b2 :: b3 :: bs4 =>
            if (if b = 0xF0 then 0x90 else 0x80) ≤ b1
                ∧ b1 < (if b = 0xF4 then 0x90 else 0xC0)
                ∧ contByte b2 ∧ contByte b3 then
              (utf8DecodeAux bs4).map
                (((b - 0xF0) * 0x40000 + (b1 - 0x80) * 0x1000
                    + (b2 - 0x80) * 0x40 + (b3 - 0x80)) :: ·)
            else none
        | _ => none
      else none

/-- `std::str::from_utf8` on the captured stdout bytes: `none` models the
`Utf8Error` case. -/
def utf8Decode (bs : List Nat) : Option String :=
  (utf8DecodeAux bs).map fun cps => ⟨cps.map Char.ofNat⟩

/-- Rust `char::is_whitespace`: the Unicode `White_Space` code points. -/
def rustIsWhitespace (c : Char) : Bool :=
  c.toNat ∈ ([0x09, 0x0A, 0x0B, 0x0C, 0x0D, 0x20, 0x85, 0xA0, 0x1680,
    0x2000, 0x2001, 0x2002, 0x2003, 0x2004, 0x2005, 0x2006, 0x2007,
    0x2008, 0x2009, 0x200A, 0x2028, 0x2029, 0x202F, 0x205F, 0x3000] : List Nat)

/-- Rust `str::trim`: drop leading and trailing whitespace. -/
def rustTrim (s : String) : String :=
  ⟨((s.data.dropWhile rustIsWhitespace).reverse.dropWhile rustIsWhitespace).reverse⟩

/-- Splitting the command template into program name and resolved
arguments (main.rs lines 182-202): the first element is taken verbatim as
the program, every following element goes through the resolver; an empty
template is the `No command to execute` case. -/
def materialize (pattern : Pattern) (record : Record) :
    List String → Option (String × List String)
  | [] => none
  | cmd :: argTemplates => some (cmd, argTemplates.map (resolveArg pattern record))

/-- One iteration of the record loop (main.rs lines 180-213): materialize
the command, run it, decode and trim its stdout, append the result field. -/
def processRecord (pattern : Pattern) (exec : ExecOracle) (tmpl : List String)
    (record : Record) : Except RunError Record :=
  match materialize pattern record tmpl with
  | none => .error .emptyCommand
  | some (cmd, args) =>
      match exec cmd args with
      | .failed => .error .processLaunchFailed
      | .ok stdout _status =>
          match utf8Decode stdout with
          | none => .error .invalidOutputEncoding
          | some out => .ok (record ++ [rustTrim out])

/-- The record loop: each record is processed in input order and its
augmented form written before the next is read; the first error aborts the
loop, keeping the rows already written. -/
def runLoop (pattern : Pattern) (exec : ExecOracle) (tmpl : List String) :
    List Record → List Record × Option RunError
  | [] => ([], none)
  | record :: rest =>
      match processRecord pattern exec tmpl record with
      | .error e => ([], some e)
      | .ok written =>
          let (ws, err) := runLoop pattern exec tmpl rest
          (written :: ws, err)

/-- The whole of `run` after configuration (main.rs lines 160-216), on an
input already parsed into rows.  With headers on, the first row (or the
empty record when there is none, as `csv_reader.headers()` yields on empty
input) is written back with the new column name appended, before any
record is processed; the remaining rows are the records.  Returns the rows
written and the error that stopped the run, if any. -/
def runModel (pattern : Pattern) (exec : ExecOracle) (tmpl : List String)
    (noHeaders : Bool) (newColumnName : String) (rows : List Record) :
    List Record × Option RunError :=
  if noHeaders then runLoop pattern exec tmpl rows
  else
    let hdr := rows.headD []
    let (ws, err) := runLoop pattern exec tmpl rows.tail
    ((hdr ++ [newColumnName]) :: ws, err)

/-! ## The configuration slip around `--no-header` (main.rs lines 47-53, 97)

`main` registers the flag under the name `no-header` but builds the config
by querying presence of the name `no-headers`; with clap 2, `is_present`
on a name no argument was registered under returns `false`. -/

/-- The clap presence map after parsing: the only flag registered is
`no-header`, so that is the only key that can be present. -/
def isPresent (noHeaderPassed : Bool) (key : String) : Bool :=
  if key = "no-header" then noHeaderPassed else false

/-- How `main` binds `Config.no_headers` (main.rs line 97): it queries the
key `no-headers`. -/
def configNoHeaders (noHeaderPassed : Bool) : Bool :=
  isPresent noHeaderPassed "no-headers"

/-- A constant process oracle, used to instantiate theorems about the
pipeline on concrete runs. -/
def execConst (stdout : List Nat) (status : Int) : ExecOracle :=
  fun _ _ => .ok stdout status

/-! ## Helper lemmas -/

/-- Splitting `replace_all` at one match: the output is the output of the
earlier matches up to the match's start, the replacement of the match, and
the output of the later matches from the match's end. -/
theorem replaceAllFrom_split (f : Option String → String) (s : List Char)
    (ms₁ : List RMatch) (m : RMatch) (ms₂ : List RMatch) :
    ∀ pos, replaceAllFrom f s pos (ms₁ ++ m :: ms₂)
      = replaceUpTo f s m.start pos ms₁ ++ (f m.cap).data
        ++ replaceAllFrom f s (m.start + m.len) ms₂ := by
  induction ms₁ with
  | nil => intro pos; simp [replaceAllFrom, replaceUpTo]
  | cons m₁ rest ih =>
      intro pos
      simp [replaceAllFrom, replaceUpTo, ih, List.append_assoc]

/-- `replace_all` only looks at each match through its capture group. -/
theorem replaceAllFrom_congr (f g : Option String → String) (s : List Char)
    (ms : List RMatch) (h : ∀ m ∈ ms, f m.cap = g m.cap) :
    ∀ pos, replaceAllFrom f s pos ms = replaceAllFrom g s pos ms := by
  induction ms with
  | nil => intro pos; rfl
  | cons m rest ih =>
      intro pos
      have hm : f m.cap = g m.cap := h m (List.mem_cons_self m rest)
      have hrest : ∀ m' ∈ rest, f m'.cap = g m'.cap :=
        fun m' hm' => h m' (List.mem_cons_of_mem m hm')
      simp [replaceAllFrom, hm, ih hrest]

/-- Well-formedness from a position is preserved by moving the position
back. -/
theorem wfFrom_mono {pos pos' : Nat} (h : pos ≤ pos') :
    ∀ ms, WFFrom pos' ms → WFFrom pos ms
  | [], _ => trivial
  | _ :: _, ⟨h1, h2, h3⟩ => ⟨Nat.le_trans h h1, h2, h3⟩

/-- The matches produced by the default-pattern scanner start at or after
the scanning position, are non-empty, and are pairwise non-overlapping in
increasing order. -/
theorem wfFrom_findMatchesAux (fuel : Nat) :
    ∀ (s : List Char) (pos : Nat), WFFrom pos (findMatchesAux fuel s pos) := by
  induction fuel with
  | zero => intro s pos; trivial
  | succ n ih =>
      intro s pos
      match s with
      | [] => trivial
      | c :: rest =>
          by_cases hc : c = '$'
          · by_cases hds : (rest.takeWhile Char.isDigit).isEmpty
            · simpa [findMatchesAux, hc, hds] using
                wfFrom_mono (Nat.le_succ pos) _ (ih rest (pos + 1))
            · simp only [findMatchesAux, hc, hds, if_true, if_false]
              refine ⟨Nat.le_refl pos, ?_, ih _ _⟩
              show 0 < 1 + (rest.takeWhile Char.isDigit).length
              omega
          · simpa [findMatchesAux, hc] using
              wfFrom_mono (Nat.le_succ pos) _ (ih rest (pos + 1))

/-- The replacement of a capture that parses to an index is the looked-up
field, or the empty string when the index is out of range. -/
theorem resolveCapture_parsed (record : Record) (c : String) (i : Nat)
    (hparse : parseUsize c = some i) :
    resolveCapture record (some c)
      = if hi : i < record.length then record.get ⟨i, hi⟩ else "" := by
  by_cases hi : i < record.length
  · simp [resolveCapture, Option.bind, hparse, List.get?_eq_get hi, hi]
  · simp [resolveCapture, Option.bind, hparse, hi,
      List.getElem?_eq_none (Nat.le_of_not_lt hi)]

/-- Records processed successfully keep their written rows when the loop
continues: the loop on `pre ++ rest` writes the rows of `pre` and then
behaves as the loop on `rest`. -/
theorem runLoop_append_ok (pattern : Pattern) (exec : ExecOracle)
    (tmpl : List String) (pre rest : List Record)
    (hpre : ∀ r ∈ pre, ∃ out, processRecord pattern exec tmpl r = .ok out) :
    runLoop pattern exec tmpl (pre ++ rest)
      = ((runLoop pattern exec tmpl pre).1 ++ (runLoop pattern exec tmpl rest).1,
         (runLoop pattern exec tmpl rest).2) := by
  induction pre with
  | nil => simp [runLoop]
  | cons r pre' ih =>
      obtain ⟨out, hout⟩ := hpre r (List.mem_cons_self r pre')
      simp [runLoop, hout, ih fun r' h => hpre r' (List.mem_cons_of_mem r h)]

/-! ## Claim theorems -/

/-- Claim C1: for every record and every placeholder occurrence whose
capture group parses as a non-negative integer `i`, the occurrence is
replaced with exactly the field `record[i]` (0-based) when
`i < record.length`, and with the empty string when `i ≥ record.length`,
the rest of the replacement output being unaffected. -/
theorem c1_index_resolution (record : Record) (s : List Char)
    (ms₁ ms₂ : List RMatch) (m : RMatch) (c : String) (i : Nat)
    (hcap : m.cap = some c) (hparse : parseUsize c = some i) :
    replaceAllFrom (resolveCapture record) s 0 (ms₁ ++ m :: ms₂)
      = replaceUpTo (resolveCapture record) s m.start 0 ms₁
        ++ (if hi : i < record.length then (record.get ⟨i, hi⟩).data else [])
        ++ replaceAllFrom (resolveCapture record) s (m.start + m.len) ms₂ := by
  rw [replaceAllFrom_split]
  rw [hcap, resolveCapture_parsed record c i hparse]
  by_cases hi : i < record.length <;> simp [hi]

theorem c1_index_resolution_witness :
    (⟨1, 2, some "1"⟩ : RMatch).cap = some "1" ∧ parseUsize "1" = some 1 ∧
    replaceAllFrom (resolveCapture ["a", "bb"]) "x$1y".data 0 [⟨1, 2, some "1"⟩]
      = "xbby".data ∧
    replaceAllFrom (resolveCapture ["a", "bb"]) "x$7y".data 0 [⟨1, 2, some "7"⟩]
      = "xy".data :=
  ⟨rfl, by decide,
   (c1_index_resolution ["a", "bb"] "x$1y".data [] [] ⟨1, 2, some "1"⟩ "1" 1
      rfl (by decide)).trans (by decide),
   (c1_index_resolution ["a", "bb"] "x$7y".data [] [] ⟨1, 2, some "7"⟩ "7" 7
      rfl (by decide)).trans (by decide)⟩

/-- Claim C4: a placeholder match whose capture group is absent, or whose
capture fails to parse as a non-negative integer, is replaced with the
empty string; the replacement closure is a total function and never
produces an error. -/
theorem c4_malformed_capture_elided (record : Record) (c : String) :
    resolveCapture record none = ""
      ∧ (parseUsize c = none → resolveCapture record (some c) = "") := by
  constructor
  · rfl
  · intro hp
    simp [resolveCapture, Option.bind, hp]

theorem c4_malformed_capture_elided_witness :
    parseUsize "abc" = none ∧
    resolveCapture ["x", "y"] none = "" ∧
    resolveCapture ["x", "y"] (some "abc") = "" :=
  ⟨by decide, (c4_malformed_capture_elided ["x", "y"] "abc").1,
   (c4_malformed_capture_elided ["x", "y"] "abc").2 (by decide)⟩

/-- Claim C7: within one argument, every placeholder occurrence is
replaced independently (only through its own capture group), matches are
replaced left to right with the output decomposing at every match, all
text outside matches is copied verbatim from the input (slices of `s`,
non-ASCII included), and the matches of the default pattern are
non-overlapping and in increasing order by construction. -/
theorem c7_independent_ordered_resolution (record : Record) (s : List Char)
    (ms : List RMatch) :
    (∀ ms₁ m ms₂, ms = ms₁ ++ m :: ms₂ →
       replaceAllFrom (resolveCapture record) s 0 ms
         = replaceUpTo (resolveCapture record) s m.start 0 ms₁
           ++ (resolveCapture record m.cap).data
           ++ replaceAllFrom (resolveCapture record) s (m.start + m.len) ms₂)
    ∧ (∀ g : Option String → String,
         (∀ m ∈ ms, g m.cap = resolveCapture record m.cap) →
         replaceAllFrom g s 0 ms = replaceAllFrom (resolveCapture record) s 0 ms)
    ∧ (∀ pos, replaceAllFrom (resolveCapture record) s pos [] = s.drop pos)
    ∧ WFFrom 0 (findMatchesDollar s) := by
  refine ⟨?_, ?_, ?_, ?_⟩
  · intro ms₁ m ms₂ hms
    rw [hms, replaceAllFrom_split]
  · intro g hg
    exact replaceAllFrom_congr g (resolveCapture record) s ms hg 0
  · intro pos; rfl
  · exact wfFrom_findMatchesAux s.length s 0

theorem c7_independent_ordered_resolution_witness :
    ([⟨1, 2, some "0"⟩] : List RMatch) = [] ++ ⟨1, 2, some "0"⟩ :: [] ∧
    replaceAllFrom (resolveCapture ["α"]) "a$0é".data 0 [⟨1, 2, some "0"⟩]
      = "aαé".data ∧
    WFFrom 0 (findMatchesDollar "a$0é".data) :=
  ⟨rfl,
   ((c7_independent_ordered_resolution ["α"] "a$0é".data [⟨1, 2, some "0"⟩]).1
      [] ⟨1, 2, some "0"⟩ [] rfl).trans (by decide),
   (c7_independent_ordered_resolution ["α"] "a$0é".data [⟨1, 2, some "0"⟩]).2.2.2⟩

/-- Claim C8: the first element of the command template becomes the
program name verbatim, never passing through the resolver (whatever
placeholder syntax it contains), and the resolved arguments are exactly
the argument templates' resolutions, in declaration order. -/
theorem c8_program_untemplated (pattern : Pattern) (record : Record)
    (cmd : String) (argTemplates : List String) :
    materialize pattern record (cmd :: argTemplates)
      = some (cmd, argTemplates.map (resolveArg pattern record))
    ∧ ∀ i : Nat, ∀ hi : i < argTemplates.length,
        (argTemplates.map (resolveArg pattern record)).get? i
          = some (resolveArg pattern record (argTemplates.get ⟨i, hi⟩)) := by
  refine ⟨rfl, ?_⟩
  intro i hi
  simp [List.get?_eq_getElem?, List.getElem?_eq_getElem,
    List.getElem?_eq_getElem (by simpa using hi : i < (argTemplates.map
      (resolveArg pattern record)).length)]

theorem c8_program_untemplated_witness :
    materialize findMatchesDollar ["X"] ["$0", "$0"] = some ("$0", ["X"]) ∧
    (["$0"].map (resolveArg findMatchesDollar ["X"])).get? 0
      = some (resolveArg findMatchesDollar ["X"] (["$0"].get ⟨0, by decide⟩)) :=
  ⟨((c8_program_untemplated findMatchesDollar ["X"] "$0" ["$0"]).1).trans
     (by decide),
   (c8_program_untemplated findMatchesDollar ["X"] "$0" ["$0"]).2 0 (by decide)⟩

/-- Claim C9: on a non-empty command template none of whose arguments
contains a match of the pattern, materialization returns the program and
the argument strings unchanged. -/
theorem c9_no_placeholder_identity (pattern : Pattern) (record : Record)
    (cmd : String) (argTemplates : List String)
    (h : ∀ a ∈ argTemplates, pattern a.data = []) :
    materialize pattern record (cmd :: argTemplates) = some (cmd, argTemplates) := by
  have hmap : argTemplates.map (resolveArg pattern record) = argTemplates := by
    induction argTemplates with
    | nil => rfl
    | cons a rest ih =>
        have ha : resolveArg pattern record a = a := by
          unfold resolveArg
          rw [h a (List.mem_cons_self a rest)]
          show (⟨a.data.drop 0⟩ : String) = a
          cases a; rfl
        simp only [List.map_cons, ha,
          ih fun a' ha' => h a' (List.mem_cons_of_mem a ha')]
  simp [materialize, hmap]

theorem c9_no_placeholder_identity_witness :
    (∀ a ∈ (["-l", "foo"] : List String), findMatchesDollar a.data = []) ∧
    materialize findMatchesDollar ["r"] ["ls", "-l", "foo"]
      = some ("ls", ["-l", "foo"]) :=
  ⟨by decide,
   c9_no_placeholder_identity findMatchesDollar ["r"] "ls" ["-l", "foo"]
     (by decide)⟩

/-- Claim C10: a capture consisting of digits whose value exceeds
`usize::MAX` fails `usize` parsing exactly like a malformed capture, so
the match is replaced with the empty string; resolution stays total. -/
theorem c10_overflow_capture_elided (record : Record) (c : String)
    (hne : c.data ≠ []) (hdigits : c.data.all Char.isDigit)
    (hbig : USIZE_MAX < digitsToNat c.data) :
    parseUsize c = none ∧ resolveCapture record (some c) = "" := by
  have hp : parseUsize c = none := by
    unfold parseUsize
    have hplus : (match c.data with
        | '+' :: rest => rest
        | cs => cs) = c.data := by
      match hd : c.data with
      | [] => rfl
      | ch :: rest =>
          by_cases hch : ch = '+'
          · exfalso
            have := List.all_eq_true.mp (hd ▸ hdigits) ch
              (List.mem_cons_self ch rest)
            rw [hch] at this
            exact absurd this (by decide)
          · cases ch
            simp_all [Char.ext_iff]
    rw [hplus]
    simp [hne, hdigits, Nat.not_le.mpr hbig]
  exact ⟨hp, by simp [resolveCapture, Option.bind, hp]⟩

theorem c10_overflow_capture_elided_witness :
    ("18446744073709551616".data ≠ [] ∧
      "18446744073709551616".data.all Char.isDigit ∧
      USIZE_MAX < digitsToNat "18446744073709551616".data) ∧
    parseUsize "18446744073709551616" = none ∧
    resolveCapture ["x"] (some "18446744073709551616") = "" :=
  ⟨⟨by decide, by decide, by decide⟩,
   c10_overflow_capture_elided ["x"] "18446744073709551616" (by decide)
     (by decide) (by decide)⟩

/-- Claim C2 (refuting the claim on the code): `main` registers the flag
`no-header` but builds `Config.no_headers` by querying the unregistered
name `no-headers`, so the flag can never reach the reader configuration:
`configNoHeaders` is constantly `false`, and a run invoked with
`--no-header` still consumes the first data row as a header and writes it
back with the new column name appended. -/
theorem c2_no_header_flag_ignored :
    (∀ passed : Bool, configNoHeaders passed = false)
    ∧ runModel findMatchesDollar (execConst [104, 105] 0) ["echo", "hi"]
        (configNoHeaders true) "Result" [["24", "a"], ["68", "b"]]
      = ([["24", "a", "Result"], ["68", "b", "hi"]], none) := by
  constructor
  · intro passed; cases passed <;> rfl
  · decide

/-- Claim C3 counterexample: with an empty command template and header
mode on, an input with zero records completes with no error at all (first
conjunct), and an input with one record has the header row already
written when `EmptyCommand` aborts the run (second conjunct) — the claim
says the run fails before any output even with zero records. -/
theorem c3_empty_command_counterexample :
    (runModel findMatchesDollar (execConst [] 0) [] false "Result"
        [["Id", "Dir"]]).2 = none
    ∧ runModel findMatchesDollar (execConst [] 0) [] false "Result"
        [["Id"], ["24"]]
      = ([["Id", "Result"]], some RunError.emptyCommand) := by
  decide

/-- Claim C3 as amended: the empty-template check runs per record, so a
run with an empty command template first reads and writes the header row
(when header mode is on) and then fails with `EmptyCommand` upon the
first record; when the input holds zero records the run completes without
error. -/
theorem c3_empty_command_amended (pattern : Pattern) (exec : ExecOracle)
    (noHeaders : Bool) (newColumnName : String) (rows : List Record) :
    runModel pattern exec [] noHeaders newColumnName rows
      = ((if noHeaders then [] else [rows.headD [] ++ [newColumnName]]),
         if (if noHeaders then rows else rows.tail) = [] then none
         else some RunError.emptyCommand) := by
  have hloop : ∀ recs : List Record,
      runLoop pattern exec [] recs
        = ([], if recs = [] then none else some RunError.emptyCommand) := by
    intro recs
    cases recs with
    | nil => simp [runLoop]
    | cons r rest => simp [runLoop, processRecord, materialize]
  cases noHeaders with
  | false => simp [runModel, hloop rows.tail]
  | true => simp [runModel, hloop rows]

/-- Claim C5: a launch failure on one record aborts the run with
`ProcessLaunchFailed`, keeping exactly the rows already written for the
earlier records; a completed process with decodable stdout yields a row
whatever its exit status (the status is never inspected); stdout that is
not valid UTF-8 aborts with `InvalidOutputEncoding`. -/
theorem c5_process_failure_policy (pattern : Pattern) (exec : ExecOracle)
    (cmd : String) (argTemplates : List String) (record : Record)
    (pre post : List Record) :
    ((∀ r ∈ pre, ∃ out,
          processRecord pattern exec (cmd :: argTemplates) r = .ok out) →
       exec cmd (argTemplates.map (resolveArg pattern record)) = .failed →
       runLoop pattern exec (cmd :: argTemplates) (pre ++ record :: post)
         = ((runLoop pattern exec (cmd :: argTemplates) pre).1,
            some RunError.processLaunchFailed))
    ∧ (∀ stdout status out,
         exec cmd (argTemplates.map (resolveArg pattern record))
             = .ok stdout status →
         utf8Decode stdout = some out →
         processRecord pattern exec (cmd :: argTemplates) record
           = .ok (record ++ [rustTrim out]))
    ∧ (∀ stdout status,
         exec cmd (argTemplates.map (resolveArg pattern record))
             = .ok stdout status →
         utf8Decode stdout = none →
         processRecord pattern exec (cmd :: argTemplates) record
           = .error RunError.invalidOutputEncoding) := by
  refine ⟨?_, ?_, ?_⟩
  · intro hpre hfail
    rw [runLoop_append_ok pattern exec (cmd :: argTemplates) pre
      (record :: post) hpre]
    have hstop : runLoop pattern exec (cmd :: argTemplates) (record :: post)
        = ([], some RunError.processLaunchFailed) := by
      simp [runLoop, processRecord, materialize, hfail]
    simp [hstop]
  · intro stdout status out hexec hdec
    simp [processRecord, materialize, hexec, hdec]
  · intro stdout status hexec hdec
    simp [processRecord, materialize, hexec, hdec]

theorem c5_process_failure_policy_witness :
    runLoop findMatchesDollar
        (fun _ args => if args = ["x"] then LaunchResult.failed
          else LaunchResult.ok [104] 0)
        ["prog", "$0"] [["a"], ["x"], ["z"]]
      = ([["a", "h"]], some RunError.processLaunchFailed)
    ∧ processRecord findMatchesDollar (execConst [104] 0) ["prog", "$0"] ["x"]
      = .ok ["x", "h"]
    ∧ processRecord findMatchesDollar (execConst [0xFF] 0) ["prog", "$0"] ["x"]
      = .error RunError.invalidOutputEncoding :=
  ⟨((c5_process_failure_policy findMatchesDollar
        (fun _ args => if args = ["x"] then LaunchResult.failed
          else LaunchResult.ok [104] 0)
        "prog" ["$0"] ["x"] [["a"]] [["z"]]).1
      (by intro r hr
          simp only [List.mem_singleton] at hr
          subst hr
          exact ⟨["a", "h"], by decide⟩)
      (by decide)).trans (by decide),
   ((c5_process_failure_policy findMatchesDollar (execConst [104] 0)
        "prog" ["$0"] ["x"] [] []).2.1 [104] 0 "h" rfl (by decide)).trans
     (by decide),
   (c5_process_failure_policy findMatchesDollar (execConst [0xFF] 0)
        "prog" ["$0"] ["x"] [] []).2.2 [0xFF] 0 rfl (by decide)⟩

/-- Claim C6: a run in which every record is processed successfully
writes one row per input record, in input order, each row being the input
record's fields unchanged followed by exactly one appended field — the
trimmed decoding of the stdout the process collaborator returned for that
record's materialized arguments. -/
theorem c6_augmented_rows (pattern : Pattern) (exec : ExecOracle)
    (cmd : String) (argTemplates : List String) (recs outs : List Record)
    (h : runLoop pattern exec (cmd :: argTemplates) recs = (outs, none)) :
    outs.length = recs.length
    ∧ ∀ i : Nat, ∀ hi : i < recs.length, ∃ stdout status out,
        exec cmd (argTemplates.map (resolveArg pattern (recs.get ⟨i, hi⟩)))
          = .ok stdout status
        ∧ utf8Decode stdout = some out
        ∧ outs.get? i = some (recs.get ⟨i, hi⟩ ++ [rustTrim out]) := by
  induction recs generalizing outs with
  | nil =>
      simp [runLoop] at h
      subst h
      exact ⟨rfl, fun i hi => absurd hi (Nat.not_lt_zero i)⟩
  | cons R rest ih =>
      cases hpr : processRecord pattern exec (cmd :: argTemplates) R with
      | error e => simp [runLoop, hpr] at h
      | ok written =>
          rcases hrest : runLoop pattern exec (cmd :: argTemplates) rest
            with ⟨ws, err⟩
          simp only [runLoop, hpr, hrest] at h
          rw [Prod.ext_iff] at h
          obtain ⟨h1, h2⟩ := h
          simp only at h1 h2
          subst h2
          obtain ⟨ihlen, ihget⟩ := ih ws hrest
          subst h1
          refine ⟨by simp [ihlen], ?_⟩
          intro i hi
          cases i with
          | zero =>
              rcases hexec : exec cmd (argTemplates.map (resolveArg pattern R))
                with _ | ⟨stdout, status⟩
              · simp only [processRecord, materialize, hexec] at hpr
                exact Except.noConfusion hpr
              · rcases hdec : utf8Decode stdout with _ | out
                · simp only [processRecord, materialize, hexec, hdec] at hpr
                  exact Except.noConfusion hpr
                · simp only [processRecord, materialize, hexec, hdec] at hpr
                  refine ⟨stdout, status, out, by simpa using hexec, hdec, ?_⟩
                  simpa using hpr.symm
          | succ j =>
              have hj : j < rest.length := by simpa using hi
              obtain ⟨stdout, status, out, he, hd, ho⟩ := ihget j hj
              refine ⟨stdout, status, out, ?_, hd, ?_⟩
              · simpa using he
              · simpa using ho

theorem c6_augmented_rows_witness :
    runLoop findMatchesDollar (execConst [104, 105] 0) ["echo", "$0"]
        [["a"], ["b"]] = ([["a", "hi"], ["b", "hi"]], none)
    ∧ ([["a", "hi"], ["b", "hi"]] : List Record).length
        = ([["a"], ["b"]] : List Record).length :=
  ⟨by decide,
   (c6_augmented_rows findMatchesDollar (execConst [104, 105] 0) "echo" ["$0"]
      [["a"], ["b"]] [["a", "hi"], ["b", "hi"]] (by decide)).1⟩

end CsvExec
